import Mathlib

/-!
Verification development for the PageSage browser extension, centred on the
incremental page-content extraction engine of its content script.

Modelling conventions:
* JS strings are modelled as Lean `String` (a list of characters); character
  codes are the Unicode code points (`Char.toNat`), matching `charCodeAt` on
  the basic multilingual plane.  JS whitespace is modelled by
  `Char.isWhitespace`.
* JS numbers that matter to the engine (scroll offsets, viewport heights) are
  modelled as exact rationals `Rat`; the literal `0.8` of the source is the
  exact rational `4 / 5`.
* The live DOM is modelled as a tree of element and text nodes.  An element
  carries its tag (lower-case), id, class list, role attribute, its computed
  style flags (`display: none`, `visibility: hidden`), and — for `img`
  elements — the natural dimensions together with the outcome of the canvas
  JPEG encode (`encodeOk` false models a canvas tainted by a cross-origin
  image, in which case `getImageBase64` fails; `jpegData` is the opaque data
  URL produced on success).
* The 32-bit signed wraparound of `hash |= 0` and of the `<<` operator is
  modelled by `toInt32`.
-/

namespace PageSage

/-! ### Text normalisation (`cleanText`, `trim`, `substring`, `includes`) -/

/-- One pass of the regex replacement `replace(/\s+/g, ' ')`: every maximal
run of whitespace characters is replaced by a single space.  The flag records
whether the previous character was part of a whitespace run. -/
def squashAux : Bool → List Char → List Char
  | _, [] => []
  | inWS, c :: cs =>
      if c.isWhitespace then
        if inWS then squashAux true cs else ' ' :: squashAux true cs
      else c :: squashAux false cs

/-- JS `String.prototype.trim`: drop leading and trailing whitespace. -/
def trimList (l : List Char) : List Char :=
  ((l.dropWhile Char.isWhitespace).reverse.dropWhile Char.isWhitespace).reverse

/-- JS `String.prototype.trim` on strings. -/
def jsTrim (s : String) : String := String.mk (trimList s.toList)

/-- Source `cleanText`: collapse whitespace runs to single spaces, then trim.
The source additionally replaces `/\n+/` by a newline in between, but after
the first replacement no newline remains, so that step is the identity. -/
def cleanText (s : String) : String := String.mk (trimList (squashAux false s.toList))

/-- JS `String.prototype.substring(0, n)`: the first `n` characters. -/
def strTake (s : String) (n : Nat) : String := String.mk (s.toList.take n)

/-- JS `Array.prototype.join(sep)`. -/
def joinSep (sep : String) : List String → String
  | [] => ""
  | x :: xs => xs.foldl (fun acc y => acc ++ sep ++ y) x

/-- Whether `pat` occurs at the head of `l`. -/
def startsList : List Char → List Char → Bool
  | [], _ => true
  | _ :: _, [] => false
  | a :: as, b :: bs => a == b && startsList as bs

/-- Whether `pat` occurs anywhere in `l`. -/
def hasOcc (pat : List Char) : List Char → Bool
  | [] => startsList pat []
  | l@(_ :: rest) => startsList pat l || hasOcc pat rest

/-- JS `String.prototype.includes`. -/
def containsSub (s pat : String) : Bool := hasOcc pat.toList s.toList

/-! ### Deduplication hash (`hashText`) -/

/-- Wrap an integer into the signed 32-bit range, as JS `| 0` does. -/
def toInt32 (n : Int) : Int := (n + 2 ^ 31) % 2 ^ 32 - 2 ^ 31

/-- One step of the source `hashText` loop:
`hash = ((hash << 5) - hash) + charCode; hash |= 0`.  The shift is a 32-bit
operation, the subtraction and addition are exact, and `|= 0` wraps. -/
def hashStep (h : Int) (c : Char) : Int := toInt32 (toInt32 (h * 32) - h + c.toNat)

/-- Source `hashText`: polynomial rolling hash of the first 100 characters
(`text.substring(0, 100)`), with 32-bit signed wraparound. -/
def hashText (s : String) : Int := (s.toList.take 100).foldl hashStep 0

/-! ### DOM model -/

/-- Static data of a DOM element, including the computed style bits and the
image attributes consulted by the engine. -/
structure ElemData where
  tag : String
  id : String := ""
  classes : List String := []
  role : String := ""
  displayNone : Bool := false
  visibilityHidden : Bool := false
  src : String := ""
  alt : String := ""
  title : String := ""
  naturalWidth : Nat := 0
  naturalHeight : Nat := 0
  encodeOk : Bool := true
  jpegData : String := ""
deriving DecidableEq

mutual
inductive Node where
  | txt : String → Node
  | el : ElemData → NodeList → Node
inductive NodeList where
  | nil : NodeList
  | cons : Node → NodeList → NodeList
end

/-- Build a `NodeList` from a Lean list of nodes. -/
def nlOf : List Node → NodeList
  | [] => .nil
  | n :: ns => .cons n (nlOf ns)

/-- Smart constructor: an element with a plain list of children. -/
def elL (d : ElemData) (cs : List Node) : Node := .el d (nlOf cs)

mutual
/-- JS `Node.textContent`: concatenation of all descendant text. -/
def textOf : Node → String
  | .txt s => s
  | .el _ cs => textOfL cs
def textOfL : NodeList → String
  | .nil => ""
  | .cons c cs => textOf c ++ textOfL cs
end

mutual
/-- All element nodes of a subtree, the root included, in document
(pre-)order. -/
def elemsN : Node → List Node
  | .txt _ => []
  | .el d cs => Node.el d cs :: elemsL cs
def elemsL : NodeList → List Node
  | .nil => []
  | .cons c cs => elemsN c ++ elemsL cs
end

/-- `element.querySelectorAll` search space: strict descendants of a node,
in document order. -/
def elemDesc : Node → List Node
  | .txt _ => []
  | .el _ cs => elemsL cs

mutual
/-- All text nodes of a subtree paired with their parent element's data, in
document order (the `TreeWalker` over `SHOW_TEXT` nodes). -/
def tnN (parent : ElemData) : Node → List (ElemData × String)
  | .txt s => [(parent, s)]
  | .el d cs => tnL d cs
def tnL (d : ElemData) : NodeList → List (ElemData × String)
  | .nil => []
  | .cons c cs => tnN d c ++ tnL d cs
end

/-- Text nodes under a root node (the root itself excluded), each with its
parent element. -/
def textNodesUnder : Node → List (ElemData × String)
  | .txt _ => []
  | .el d cs => tnL d cs

def tagOf : Node → String
  | .txt _ => ""
  | .el d _ => d.tag

def isTag (t : String) (n : Node) : Bool := tagOf n == t

/-- Inline tags whose text is included in a list item's direct text. -/
def inlineTags : List String := ["a", "span", "strong", "em", "b", "i", "sup", "sub"]

/-- The child-node scan of `getDirectText`: text nodes contribute their text,
inline elements contribute their whole `textContent`, other elements
contribute nothing. -/
def directRawL : NodeList → String
  | .nil => ""
  | .cons c cs =>
      (match c with
        | .txt s => s
        | .el d cs2 => if inlineTags.contains d.tag then textOf (Node.el d cs2) else "") ++
      directRawL cs

/-- Source `getDirectText`. -/
def getDirectText : Node → String
  | .txt _ => cleanText ""
  | .el _ cs => cleanText (directRawL cs)

/-- The live document, as the engine sees it. -/
structure Doc where
  body : Node
  title : String := ""
  url : String := ""

/-! ### Main content locator (`findMainContent`) -/

/-- The selector forms occurring in the source's `contentSelectors` list. -/
inductive Sel where
  | idSel : String → Sel
  | clsSel : String → Sel
  | tagSel : String → Sel
  | roleMain : Sel

/-- The ordered selector list of `findMainContent`. -/
def contentSelectors : List Sel :=
  [.idSel "mw-content-text", .idSel "bodyContent", .clsSel "mw-parser-output",
   .tagSel "article", .roleMain, .tagSel "main",
   .clsSel "article-content", .clsSel "post-content", .clsSel "entry-content",
   .clsSel "content-area", .idSel "content", .clsSel "main-content",
   .clsSel "postArticle-content", .clsSel "story-body", .clsSel "article-body"]

def matchesSel (sel : Sel) (n : Node) : Bool :=
  match n with
  | .txt _ => false
  | .el d _ =>
      match sel with
      | .idSel s => d.id == s
      | .clsSel s => d.classes.contains s
      | .tagSel s => d.tag == s
      | .roleMain => d.role == "main"

/-- `document.querySelector`: first matching element in document order. -/
def queryFirst (doc : Doc) (sel : Sel) : Option Node :=
  (elemsN doc.body).find? (matchesSel sel)

/-- Source `findMainContent`: the first selector whose first match has more
than 500 characters of trimmed text; `none` when no selector qualifies. -/
def findMainContent (doc : Doc) : Option Node :=
  contentSelectors.findSome? fun sel =>
    match queryFirst doc sel with
    | some el => if (jsTrim (textOf el)).length > 500 then some el else none
    | none => none

/-! ### Accumulated content store -/

structure Image where
  src : String
  alt : String
  title : String
  width : Nat
  height : Nat
  base64 : Option String
deriving DecidableEq

structure Heading where
  level : Nat
  text : String
deriving DecidableEq

structure ListBlock where
  type : String
  items : List String
deriving DecidableEq

structure Structured where
  headings : List Heading := []
  lists : List ListBlock := []
  tables : List String := []
  paragraphs : List String := []
deriving DecidableEq

/-- The `extractedContent` global of the content script.  Timestamps are
modelled as abstract `Nat` clock readings supplied by the event. -/
structure Content where
  title : String := ""
  url : String := ""
  textContent : String := ""
  images : List Image := []
  structuredContent : Structured := {}
  extractedAt : Nat := 0
  scrollPositions : List (Rat × Nat) := []
  isComplete : Bool := false
deriving DecidableEq

/-- The whole mutable state of the content script: the accumulated content,
the `seenTextBlocks` hash set, and the `lastScrollPosition` module variable. -/
structure EngState where
  content : Content := {}
  seen : List Int := []
  lastScrollPosition : Rat := 0
deriving DecidableEq

/-- The state at script load: empty content, `isComplete = false`, no seen
hashes. -/
def initState : EngState := {}

/-! ### Deduplication engine and text log -/

/-- Source `isDuplicate`: hash the text, answer whether the hash was already
seen, and record it when it was not.  Returns the answer with the updated
state. -/
def isDuplicate (text : String) (s : EngState) : Bool × EngState :=
  let h := hashText text
  if h ∈ s.seen then (true, s)
  else (false, { s with seen := h :: s.seen })

/-- Source `addText`: append the block and a line break to the text log. -/
def addText (text : String) (s : EngState) : EngState :=
  { s with content.textContent := s.content.textContent ++ text ++ "\n" }

/-! ### Extraction strategies as candidate streams

Each scan of `extractFromElement` / `extractFromBody` computes, per matched
node, a candidate: the raw text handed to `isDuplicate`, the rendered block
handed to `addText`, the outcome of the length/truthiness guard (which in the
source short-circuits *before* `isDuplicate` is called), and whether the
paragraph array is also pushed.  Candidates are computed purely from the DOM;
the stateful part of every scan is the same left fold `processCand`. -/

structure Cand where
  raw : String
  render : String
  keep : Bool
  isPara : Bool := false

/-- Process one candidate: if the guard failed, nothing happens (the source
short-circuits, so `isDuplicate` is not even called); otherwise consult the
deduplication engine and, on a fresh block, append it (and, for paragraphs,
push the paragraph array). -/
def processCand (s : EngState) (c : Cand) : EngState :=
  if c.keep then
    let r := isDuplicate c.raw s
    if r.1 then r.2
    else
      let s2 := addText c.render r.2
      if c.isPara then
        { s2 with content.structuredContent.paragraphs :=
            s2.content.structuredContent.paragraphs ++ [c.raw] }
      else s2
  else s

/-- Paragraph scan: `p` descendants, cleaned text, guard `length > 20`. -/
def paraCands (el : Node) : List Cand :=
  ((elemDesc el).filter (isTag "p")).map fun p =>
    let t := cleanText (textOf p)
    { raw := t, render := t, keep := decide (t.length > 20), isPara := true }

def headingLevel (t : String) : Option Nat :=
  if t == "h1" then some 1 else if t == "h2" then some 2
  else if t == "h3" then some 3 else if t == "h4" then some 4
  else if t == "h5" then some 5 else if t == "h6" then some 6 else none

/-- Heading scan: `h1`–`h6` descendants, guard nonempty text, rendered with
the `## ` marker. -/
def headingCands (el : Node) : List Cand :=
  ((elemDesc el).filter (fun n => (headingLevel (tagOf n)).isSome)).map fun h =>
    let t := cleanText (textOf h)
    { raw := t, render := "\n## " ++ t ++ "\n", keep := t != "" }

/-- List-item scan: `li` descendants, direct text, guard `length > 10`,
rendered with a bullet. -/
def liCands (el : Node) : List Cand :=
  ((elemDesc el).filter (isTag "li")).map fun li =>
    let t := getDirectText li
    { raw := t, render := "• " ++ t, keep := decide (t.length > 10) }

/-- The cell scan of one table row: `th`/`td` descendants of the row, cleaned
text, cells of 200 or more characters skipped. -/
def rowCellsOf (tr : Node) : List String :=
  ((elemDesc tr).filter (fun n => isTag "th" n || isTag "td" n)).filterMap fun c =>
    let t := cleanText (textOf c)
    if t.length < 200 then some t else none

/-- The row loop of `extractTableText`: `forEach((tr, i) => if (i > 20)
return; ...)` — rows with index above 20 are skipped (the loop itself keeps
running), a row is emitted only when it has at least one surviving cell. -/
def tableRowsAux (i : Nat) : List Node → List String
  | [] => []
  | tr :: rest =>
      if i > 20 then tableRowsAux (i + 1) rest
      else
        let cells := rowCellsOf tr
        if cells = [] then tableRowsAux (i + 1) rest
        else joinSep " | " cells :: tableRowsAux (i + 1) rest

/-- The rows emitted by `extractTableText` for one table. -/
def extractTableRows (tb : Node) : List String :=
  tableRowsAux 0 ((elemDesc tb).filter (isTag "tr"))

/-- Source `extractTableText`: rows joined with line breaks. -/
def extractTableText (tb : Node) : String :=
  joinSep "\n" (extractTableRows tb)

/-- Table scan: guard is JS truthiness of the table text (nonempty). -/
def tableCands (el : Node) : List Cand :=
  ((elemDesc el).filter (isTag "table")).map fun tb =>
    let t := extractTableText tb
    { raw := t, render := t, keep := t != "" }

/-- Blockquote scan: guard `length > 20`, rendered with the `> ` marker. -/
def bqCands (el : Node) : List Cand :=
  ((elemDesc el).filter (isTag "blockquote")).map fun bq =>
    let t := cleanText (textOf bq)
    { raw := t, render := "> " ++ t, keep := decide (t.length > 20) }

/-- Definition-list scan: `dd` descendants, guard `length > 20`. -/
def ddCands (el : Node) : List Cand :=
  ((elemDesc el).filter (isTag "dd")).map fun dd =>
    let t := cleanText (textOf dd)
    { raw := t, render := t, keep := decide (t.length > 20) }

/-- The candidate stream of `extractFromElement`, in the fixed scan order of
the source. -/
def elementCands (el : Node) : List Cand :=
  paraCands el ++ headingCands el ++ liCands el ++ tableCands el ++ bqCands el ++ ddCands el

/-- Source `extractFromElement`. -/
def extractFromElement (el : Node) (s : EngState) : EngState :=
  (elementCands el).foldl processCand s

/-- Tags rejected by the fallback walker's filter. -/
def blockedTags : List String :=
  ["script", "style", "noscript", "iframe", "svg", "nav", "footer", "header"]

/-- The `acceptNode` filter of the fallback walker, in source order: reject
when the parent's tag is blocked, reject when the parent's computed style is
hidden, reject text shorter than 10 characters after trimming. -/
def walkerAccept (parent : ElemData) (s : String) : Bool :=
  if blockedTags.contains parent.tag then false
  else if parent.displayNone || parent.visibilityHidden then false
  else if (jsTrim s).length < 10 then false
  else true

/-- The candidate stream of `extractFromBody`: accepted text nodes, cleaned,
with the loop's own guard `length > 10`. -/
def bodyCands (doc : Doc) : List Cand :=
  ((textNodesUnder doc.body).filter fun pd => walkerAccept pd.1 pd.2).map fun pd =>
    let t := cleanText pd.2
    { raw := t, render := t, keep := decide (t.length > 10) }

/-- Source `extractFromBody` (fallback whole-document walker). -/
def extractFromBody (doc : Doc) (s : EngState) : EngState :=
  (bodyCands doc).foldl processCand s

/-- The candidate stream of one full pass, depending only on the document. -/
def candsOf (doc : Doc) : List Cand :=
  match findMainContent doc with
  | some el => elementCands el
  | none => bodyCands doc

/-! ### Structured content builder -/

/-- One step of the heading rebuild loop: keep nonempty texts shorter than
200 characters, and push only texts not already present. -/
def pushHeading (acc : List Heading) (p : Nat × String) : List Heading :=
  if p.2 ≠ "" ∧ p.2.length < 200 then
    if acc.any (fun h => h.text == p.2) then acc else acc ++ [⟨p.1, p.2⟩]
  else acc

/-- The document's headings in document order, as (level, cleaned text)
pairs. -/
def headingPairs (doc : Doc) : List (Nat × String) :=
  (elemsN doc.body).filterMap fun n =>
    match n with
    | .el d cs =>
        match headingLevel d.tag with
        | some lv => some (lv, cleanText (textOfL cs))
        | none => none
    | .txt _ => none

/-- The heading list rebuilt from scratch by `updateStructuredContent`. -/
def buildHeadings (doc : Doc) : List Heading :=
  (headingPairs doc).foldl pushHeading []

/-- The item loop of the list rebuild: direct `li` children, items with index
20 or above skipped, texts kept when strictly between 5 and 500 characters. -/
def listItemsAux (i : Nat) : List Node → List String
  | [] => []
  | li :: rest =>
      if i ≥ 20 then listItemsAux (i + 1) rest
      else
        let t := getDirectText li
        if t.length > 5 ∧ t.length < 500 then t :: listItemsAux (i + 1) rest
        else listItemsAux (i + 1) rest

/-- The plain list of a `NodeList`. -/
def nlToList : NodeList → List Node
  | .nil => []
  | .cons c cs => c :: nlToList cs

/-- `element.childNodes`, as a list. -/
def directChildren : Node → List Node
  | .txt _ => []
  | .el _ cs => nlToList cs

/-- Items of one list (`:scope > li`, at most the first 20). -/
def listItems (l : Node) : List String :=
  listItemsAux 0 ((directChildren l).filter (isTag "li"))

/-- The list loop of the rebuild: lists with index 10 or above skipped, a
list kept only when it has surviving items. -/
def listsAux (i : Nat) : List Node → List ListBlock
  | [] => []
  | l :: rest =>
      if i ≥ 10 then listsAux (i + 1) rest
      else
        let items := listItems l
        if items = [] then listsAux (i + 1) rest
        else ⟨tagOf l, items⟩ :: listsAux (i + 1) rest

def buildLists (doc : Doc) : List ListBlock :=
  listsAux 0 ((elemsN doc.body).filter (fun n => isTag "ul" n || isTag "ol" n))

/-- Source `updateStructuredContent`: headings and lists are reset and
rebuilt from the live document; paragraphs are untouched. -/
def updateStructuredContent (doc : Doc) (c : Content) : Content :=
  { c with structuredContent :=
      { c.structuredContent with headings := buildHeadings doc, lists := buildLists doc } }

/-! ### Image capture -/

/-- Source `getImageBase64`: the canvas downsample-and-encode, which fails
(returning null) when the canvas is poisoned by a cross-origin image. -/
def getImageBase64 (d : ElemData) : Option String :=
  if d.encodeOk then some d.jpegData else none

/-- The filter of `updateImages`, in source order: dimensions at least 100,
a nonempty `src` not yet recorded, and no tracking-pixel substring. -/
def imageEligible (existing : List String) (d : ElemData) : Bool :=
  !(decide (d.naturalWidth < 100) || decide (d.naturalHeight < 100)) &&
  !(d.src == "" || existing.contains d.src) &&
  !(containsSub d.src "pixel" || containsSub d.src "tracking")

/-- The record built for one eligible image; the `base64` field holds the
encode result and is absent (`none`) when the encode failed. -/
def mkImage (d : ElemData) : Image :=
  { src := d.src, alt := d.alt, title := d.title,
    width := d.naturalWidth, height := d.naturalHeight,
    base64 := getImageBase64 d }

/-- The data of all `img` elements of the document, in document order. -/
def imgElems (doc : Doc) : List ElemData :=
  (elemsN doc.body).filterMap fun n =>
    match n with
    | .el d _ => if d.tag == "img" then some d else none
    | .txt _ => none

/-- Source `updateImages`: the set of already-recorded sources is computed
once at entry; every eligible image is appended. -/
def updateImages (doc : Doc) (c : Content) : Content :=
  let existing := c.images.map Image.src
  { c with images := c.images ++
      ((imgElems doc).filterMap fun d =>
        if imageEligible existing d then some (mkImage d) else none) }

/-! ### One full extraction pass -/

/-- The tail of every pass: rebuild the structured snapshot, refresh images,
stamp `extractedAt`. -/
def refreshContent (doc : Doc) (now : Nat) (c : Content) : Content :=
  { updateImages doc (updateStructuredContent doc c) with extractedAt := now }

/-- Source `extractAllContent`: extract via the main-content strategies when
a main container is found, else via the fallback walker; then refresh the
structured snapshot and the images. -/
def extractAllContent (doc : Doc) (now : Nat) (s : EngState) : EngState :=
  let s1 :=
    match findMainContent doc with
    | some el => extractFromElement el s
    | none => extractFromBody doc s
  { s1 with content := refreshContent doc now s1.content }

/-! ### Triggers: scroll, auto-scroll, messages -/

/-- The window-scroll geometry: viewport height, current scroll offset, and
`document.body.offsetHeight`. -/
structure Window where
  innerHeight : Rat
  scrollY : Rat
  bodyHeight : Rat

def rmin (a b : Rat) : Rat := if a ≤ b then a else b

def rmax (a b : Rat) : Rat := if a ≤ b then b else a

/-- `window.scrollBy(0, dy)`: the browser clamps the offset into
`[0, bodyHeight - innerHeight]` (at least 0). -/
def scrollByClamped (w : Window) (dy : Rat) : Window :=
  { w with scrollY := rmin (rmax (w.scrollY + dy) 0) (rmax (w.bodyHeight - w.innerHeight) 0) }

/-- The interval body of `autoScrollPage`: scroll by one step, count it, stop
when the bottom is within 50 pixels or the step cap (50) is hit.  The fuel is
an upper bound on the remaining ticks; with fuel 50 it never runs out before
the step cap fires. -/
def autoScrollLoop (scrollStep : Rat) : Nat → Window → Nat → Window × Nat
  | 0, w, count => (w, count)
  | f + 1, w, count =>
      let w1 := scrollByClamped w scrollStep
      let c1 := count + 1
      if w1.innerHeight + w1.scrollY ≥ w1.bodyHeight - 50 ∨ c1 ≥ 50 then (w1, c1)
      else autoScrollLoop scrollStep f w1 c1

/-- Milliseconds between auto-scroll steps in the source. -/
def autoScrollIntervalMs : Nat := 300

/-- Source `autoScrollPage`: steps of 80% of the viewport height
(`window.innerHeight * 0.8`), then `window.scrollTo(0, 0)`.  Returns the
final window together with the number of steps taken. -/
def autoScrollPage (w : Window) : Window × Nat :=
  let scrollStep := w.innerHeight * (4 / 5)
  let r := autoScrollLoop scrollStep 50 w 0
  ({ r.1 with scrollY := 0 }, r.2)

/-- The debounced scroll handler: run a pass when the offset moved more than
100 pixels since the last recorded position (recording the new position), and
mark completion when the viewport bottom is within 100 pixels of the document
bottom. -/
def scrollHandler (doc : Doc) (w : Window) (now : Nat) (s : EngState) : EngState :=
  let s1 :=
    if |w.scrollY - s.lastScrollPosition| > 100 then
      let s2 := extractAllContent doc now s
      { s2 with lastScrollPosition := w.scrollY,
                content.scrollPositions := s2.content.scrollPositions ++ [(w.scrollY, now)] }
    else s
  if w.innerHeight + w.scrollY ≥ w.bodyHeight - 100 then
    { s1 with content.isComplete := true }
  else s1

/-- The message actions the content script answers. -/
inductive Request where
  | extractContent : Request
  | getFullContent : Request

/-- The `chrome.runtime.onMessage` listener: `extractContent` replies with
the accumulated content, its text truncated to the first 50000 characters;
`getFullContent` replies without truncation.  Neither mutates the state. -/
def handleMessage : Request → EngState → Content × EngState
  | .extractContent, s =>
      ({ s.content with textContent := strTake s.content.textContent 50000 }, s)
  | .getFullContent, s => (s.content, s)

/-- The events that drive the engine: the initial pass, the delayed
after-load pass, the debounced scroll timer, the debounced mutation pass, the
auto-scroll command (whose window side effects are modelled by
`autoScrollPage`), and snapshot messages. -/
inductive Event where
  | initialPass : Doc → Nat → Event
  | loadPass : Doc → Nat → Event
  | scrollTimer : Doc → Window → Nat → Event
  | mutationPass : Doc → Nat → Event
  | autoScrollCmd : Window → Event
  | message : Request → Event

/-- The state transition of one event. -/
def step : Event → EngState → EngState
  | .initialPass doc now, s => extractAllContent doc now s
  | .loadPass doc now, s => extractAllContent doc now s
  | .scrollTimer doc w now, s => scrollHandler doc w now s
  | .mutationPass doc now, s => extractAllContent doc now s
  | .autoScrollCmd _, s => { s with content.isComplete := true }
  | .message r, s => (handleMessage r s).2

/-! ### Specification-side definitions

These definitions follow the wording of the specification (not the source);
they exist to be compared with the source-derived definitions above. -/

/-- In-order first-occurrence deduplication of heading pairs by exact text,
carrying the set of texts already taken. -/
def dedupHeadings (seenTexts : List String) : List (Nat × String) → List Heading
  | [] => []
  | p :: rest =>
      if p.2 ∈ seenTexts then dedupHeadings seenTexts rest
      else ⟨p.1, p.2⟩ :: dedupHeadings (p.2 :: seenTexts) rest

/-- The heading list as the claim words it: the in-order list of the live
document's headings deduplicated by exact text, first occurrence kept with
its numeric level — with no further filtering. -/
def headingsClaimed (doc : Doc) : List Heading :=
  dedupHeadings [] (headingPairs doc)

/-- The heading list as the amended claim words it: the in-order headings
whose normalised text is nonempty and shorter than 200 characters,
deduplicated by exact text with first occurrence kept. -/
def headingsAmended (doc : Doc) : List Heading :=
  dedupHeadings []
    ((headingPairs doc).filter fun p => !(p.2 == "") && decide (p.2.length < 200))

/-- The text emitted for one table row, as the amended claim words it. -/
def rowOf (tr : Node) : Option String :=
  let cells := rowCellsOf tr
  if cells = [] then none else some (joinSep " | " cells)

/-- The table rows as the amended claim words them: only the first 21 rows
(indices 0 through 20) are scanned. -/
def tableRowsAmended (tb : Node) : List String :=
  (((elemDesc tb).filter (isTag "tr")).take 21).filterMap rowOf

/-- The texts the fallback walker actually accepts (the candidates surviving
both the walker filter and the loop guard), in walk order. -/
def walkerCodeAccepted (doc : Doc) : List String :=
  ((bodyCands doc).filter fun c => c.keep).map fun c => c.raw

mutual
/-- Text nodes with the full chain of ancestor elements (nearest first). -/
def ancN (anc : List ElemData) : Node → List (List ElemData × String)
  | .txt s => [(anc, s)]
  | .el d cs => ancL (d :: anc) cs
def ancL (anc : List ElemData) : NodeList → List (List ElemData × String)
  | .nil => []
  | .cons c cs => ancN anc c ++ ancL anc cs
end

/-- Text nodes under the body with their ancestor chains. -/
def textNodesAnc (doc : Doc) : List (List ElemData × String) :=
  match doc.body with
  | .el d cs => ancL [d] cs
  | .txt _ => []

/-- The walker acceptance as the claim words it: reject text nodes inside
(that is, with any ancestor among) the blocked elements, reject nodes whose
computed style is hidden, accept exactly the remaining nodes whose normalised
text is at least 10 characters long. -/
def walkerClaimAccepted (doc : Doc) : List String :=
  (textNodesAnc doc).filterMap fun as =>
    if as.1.any (fun a => blockedTags.contains a.tag) then none
    else if (match as.1 with
             | [] => false
             | p :: _ => p.displayNone || p.visibilityHidden) then none
    else if (cleanText as.2).length ≥ 10 then some (cleanText as.2) else none

/-- The walker acceptance as the amended claim words it: reject text nodes
whose parent element is blocked or hidden, accept exactly the remaining
nodes with trimmed text of at least 10 characters and normalised text of
more than 10 characters. -/
def walkerAmendedAccepted (doc : Doc) : List String :=
  (textNodesUnder doc.body).filterMap fun pd =>
    if !(blockedTags.contains pd.1.tag) && !(pd.1.displayNone || pd.1.visibilityHidden)
        && decide ((jsTrim pd.2).length ≥ 10) && decide ((cleanText pd.2).length > 10)
    then some (cleanText pd.2) else none

/-- Deduplicate-then-append of one accepted walker block, as the claim words
the handling of accepted nodes. -/
def processBlock (s : EngState) (t : String) : EngState :=
  let r := isDuplicate t s
  if r.1 then r.2 else addText t r.2

/-! ### Concrete documents and windows used as test inputs -/

/-- A 200-character text (the boundary of the heading and cell filters). -/
def aText200 : String := (List.replicate 200 'a').asString

/-- A document whose only heading has exactly 200 characters of text. -/
def docHeadCE : Doc :=
  { body := elL { tag := "body" } [elL { tag := "h1" } [.txt aText200]] }

/-- A table row with a single short cell. -/
def shortRow (s : String) : Node :=
  elL { tag := "tr" } [elL { tag := "td" } [.txt s]]

/-- A table with 22 rows. -/
def tableCE : Node := elL { tag := "table" } (List.replicate 22 (shortRow "x"))

/-- A table whose only row has a single cell of exactly 200 characters. -/
def tableCE2 : Node := elL { tag := "table" } [shortRow ((List.replicate 200 'c').asString)]

/-- A document with a text node nested two levels inside a `nav` element and
a paragraph of exactly 10 characters. -/
def docWalkCE : Doc :=
  { body := elL { tag := "body" }
      [elL { tag := "nav" } [elL { tag := "div" } [.txt "inside navigation menu"]],
       elL { tag := "p" } [.txt "0123456789"]] }

/-- A viewport of height 1000 at the top of a page ten viewports tall. -/
def winCE : Window := { innerHeight := 1000, scrollY := 0, bodyHeight := 10 * 1000 }

/-- A 101-character string: 100 copies of a and an x. -/
def hashTextA : String := (List.replicate 100 'a' ++ ['x']).asString

/-- A different 101-character string agreeing with `hashTextA` on the first
100 characters. -/
def hashTextB : String := (List.replicate 100 'a' ++ ['y']).asString

/-- An image whose canvas encode fails (cross-origin). -/
def imgFailData : ElemData :=
  { tag := "img", src := "https://example.com/fig.png", alt := "figure",
    title := "fig", naturalWidth := 200, naturalHeight := 300, encodeOk := false }

/-- A document containing only the failing image. -/
def docImgCE : Doc := { body := elL { tag := "body" } [.el imgFailData .nil] }

/-- A state whose extraction has been marked complete. -/
def stateComplete : EngState := { content := { isComplete := true } }

/-! ## Helper lemmas about candidate processing -/

theorem processCand_textContent (s : EngState) (c : Cand) :
    ∃ t, (processCand s c).content.textContent = s.content.textContent ++ t := by
  by_cases hk : c.keep = true
  · by_cases hm : hashText c.raw ∈ s.seen
    · exact ⟨"", by simp [processCand, isDuplicate, hk, hm, String.append_empty]⟩
    · refine ⟨c.render ++ "\n", ?_⟩
      by_cases hp : c.isPara = true <;>
        simp [processCand, isDuplicate, addText, hk, hm, hp, String.append_assoc]
  · exact ⟨"", by simp [processCand, hk, String.append_empty]⟩

theorem foldl_processCand_textContent (l : List Cand) :
    ∀ s : EngState, ∃ t,
      (l.foldl processCand s).content.textContent = s.content.textContent ++ t := by
  induction l with
  | nil => exact fun s => ⟨"", by simp [String.append_empty]⟩
  | cons c rest ih =>
      intro s
      obtain ⟨t1, h1⟩ := processCand_textContent s c
      obtain ⟨t2, h2⟩ := ih (processCand s c)
      exact ⟨t1 ++ t2, by simp [List.foldl_cons, h2, h1, String.append_assoc]⟩

theorem processCand_seen_sub (s : EngState) (c : Cand) :
    s.seen ⊆ (processCand s c).seen := by
  by_cases hk : c.keep = true
  · by_cases hm : hashText c.raw ∈ s.seen
    · simp [processCand, isDuplicate, hk, hm]
    · by_cases hp : c.isPara = true <;>
        · intro x hx
          simp [processCand, isDuplicate, addText, hk, hm, hp] at hx ⊢
          exact Or.inr hx
  · simp [processCand, hk]

theorem foldl_processCand_seen_sub (l : List Cand) :
    ∀ s : EngState, s.seen ⊆ (l.foldl processCand s).seen := by
  induction l with
  | nil => exact fun s x hx => hx
  | cons c rest ih =>
      intro s
      exact fun x hx => ih (processCand s c) (processCand_seen_sub s c hx)

theorem processCand_keep_mem (s : EngState) (c : Cand) (hk : c.keep = true) :
    hashText c.raw ∈ (processCand s c).seen := by
  by_cases hm : hashText c.raw ∈ s.seen
  · simp only [processCand, isDuplicate, hk, if_true]
    simp [hm]
  · by_cases hp : c.isPara = true <;>
      simp [processCand, isDuplicate, addText, hk, hm, hp]

theorem foldl_processCand_keep_mem (l : List Cand) :
    ∀ (s : EngState), ∀ c ∈ l, c.keep = true →
      hashText c.raw ∈ (l.foldl processCand s).seen := by
  induction l with
  | nil => intro s c hc; exact absurd hc (List.not_mem_nil c)
  | cons d rest ih =>
      intro s c hc hk
      rcases List.mem_cons.mp hc with h | h
      · subst h
        exact foldl_processCand_seen_sub rest (processCand s c)
          (processCand_keep_mem s c hk)
      · exact ih (processCand s d) c h hk

theorem processCand_stable (s : EngState) (c : Cand)
    (h : c.keep = true → hashText c.raw ∈ s.seen) :
    processCand s c = s := by
  by_cases hk : c.keep = true
  · simp [processCand, isDuplicate, hk, h hk]
  · simp [processCand, hk]

theorem foldl_processCand_stable (l : List Cand) :
    ∀ s : EngState, (∀ c ∈ l, c.keep = true → hashText c.raw ∈ s.seen) →
      l.foldl processCand s = s := by
  induction l with
  | nil => intro s _; rfl
  | cons c rest ih =>
      intro s h
      have hc : processCand s c = s := processCand_stable s c (h c (List.mem_cons_self c rest))
      rw [List.foldl_cons, hc]
      exact ih s fun d hd => h d (List.mem_cons_of_mem c hd)

theorem processCand_isComplete (s : EngState) (c : Cand) :
    (processCand s c).content.isComplete = s.content.isComplete := by
  by_cases hk : c.keep = true
  · by_cases hm : hashText c.raw ∈ s.seen
    · simp [processCand, isDuplicate, hk, hm]
    · by_cases hp : c.isPara = true <;>
        simp [processCand, isDuplicate, addText, hk, hm, hp]
  · simp [processCand, hk]

theorem foldl_processCand_isComplete (l : List Cand) :
    ∀ s : EngState, (l.foldl processCand s).content.isComplete = s.content.isComplete := by
  induction l with
  | nil => intro s; rfl
  | cons c rest ih =>
      intro s
      rw [List.foldl_cons, ih, processCand_isComplete]

/-! ## Helper lemmas about a full pass -/

theorem refreshContent_textContent (doc : Doc) (now : Nat) (c : Content) :
    (refreshContent doc now c).textContent = c.textContent := rfl

theorem refreshContent_isComplete (doc : Doc) (now : Nat) (c : Content) :
    (refreshContent doc now c).isComplete = c.isComplete := rfl

theorem refreshContent_headings (doc : Doc) (now : Nat) (c : Content) :
    (refreshContent doc now c).structuredContent.headings = buildHeadings doc := rfl

theorem extractAllContent_eq (doc : Doc) (now : Nat) (s : EngState) :
    extractAllContent doc now s =
      { (candsOf doc).foldl processCand s with
        content := refreshContent doc now (((candsOf doc).foldl processCand s)).content } := by
  cases h : findMainContent doc <;>
    simp [extractAllContent, candsOf, extractFromElement, extractFromBody, h]

theorem extractAllContent_seen (doc : Doc) (now : Nat) (s : EngState) :
    (extractAllContent doc now s).seen = ((candsOf doc).foldl processCand s).seen := by
  rw [extractAllContent_eq]

theorem extractAllContent_textContent (doc : Doc) (now : Nat) (s : EngState) :
    ∃ t, (extractAllContent doc now s).content.textContent = s.content.textContent ++ t := by
  obtain ⟨t, ht⟩ := foldl_processCand_textContent (candsOf doc) s
  exact ⟨t, by rw [extractAllContent_eq]; simpa [refreshContent_textContent] using ht⟩

theorem extractAllContent_isComplete (doc : Doc) (now : Nat) (s : EngState) :
    (extractAllContent doc now s).content.isComplete = s.content.isComplete := by
  rw [extractAllContent_eq]
  simp only [refreshContent_isComplete]
  exact foldl_processCand_isComplete (candsOf doc) s

/-! ## Claims C1 and C2 -/

/-- Claim C1: `textContent` is append-only.  `addText` appends the block and
a line break, and every event of the engine — every extraction pass, the
scroll handler, the auto-scroll completion, and the snapshot messages —
leaves the previous `textContent` as a prefix of the new one, only ever
appending a (possibly empty) suffix; no operation removes or truncates
blocks from internal storage. -/
theorem c1_textContent_append_only :
    (∀ (text : String) (s : EngState),
      (addText text s).content.textContent = s.content.textContent ++ text ++ "\n") ∧
    (∀ (e : Event) (s : EngState),
      ∃ t, (step e s).content.textContent = s.content.textContent ++ t) := by
  constructor
  · intro text s; rfl
  · intro e s
    cases e with
    | initialPass doc now => exact extractAllContent_textContent doc now s
    | loadPass doc now => exact extractAllContent_textContent doc now s
    | mutationPass doc now => exact extractAllContent_textContent doc now s
    | autoScrollCmd w => exact ⟨"", by simp [step, String.append_empty]⟩
    | message r =>
        refine ⟨"", ?_⟩
        cases r <;> simp [step, handleMessage, String.append_empty]
    | scrollTimer doc w now =>
        by_cases hmove : |w.scrollY - s.lastScrollPosition| > 100
        · obtain ⟨t, ht⟩ := extractAllContent_textContent doc now s
          refine ⟨t, ?_⟩
          by_cases hbot : w.innerHeight + w.scrollY ≥ w.bodyHeight - 100 <;>
            simp [step, scrollHandler, hmove, hbot, ht]
        · refine ⟨"", ?_⟩
          by_cases hbot : w.innerHeight + w.scrollY ≥ w.bodyHeight - 100 <;>
            simp [step, scrollHandler, hmove, hbot, String.append_empty]

/-- Claim C2: extraction passes are idempotent on an unchanged document —
running `extractAllContent` a second time immediately after a first run
appends nothing to `textContent`.  Every candidate block of a pass is
computed purely from the document, and the first pass records the hash of
every candidate that passes its length guard, so the second pass rejects
them all. -/
theorem c2_pass_idempotent (doc : Doc) (n1 n2 : Nat) (s : EngState) :
    (extractAllContent doc n2 (extractAllContent doc n1 s)).content.textContent
      = (extractAllContent doc n1 s).content.textContent := by
  have hseen : ∀ c ∈ candsOf doc, c.keep = true →
      hashText c.raw ∈ (extractAllContent doc n1 s).seen := by
    intro c hc hk
    rw [extractAllContent_seen]
    exact foldl_processCand_keep_mem (candsOf doc) s c hc hk
  have hstable : (candsOf doc).foldl processCand (extractAllContent doc n1 s)
      = extractAllContent doc n1 s :=
    foldl_processCand_stable (candsOf doc) (extractAllContent doc n1 s) hseen
  rw [extractAllContent_eq doc n2, hstable, refreshContent_textContent]

/-! ## Helper lemmas about the hash -/

theorem toInt32_range (n : Int) : -(2 ^ 31) ≤ toInt32 n ∧ toInt32 n < 2 ^ 31 := by
  unfold toInt32
  have h1 : (0 : Int) ≤ (n + 2 ^ 31) % 2 ^ 32 := Int.emod_nonneg _ (by norm_num)
  have h2 : (n + 2 ^ 31) % 2 ^ 32 < 2 ^ 32 := Int.emod_lt_of_pos _ (by norm_num)
  norm_num at h1 h2 ⊢
  omega

theorem foldl_hashStep_range (l : List Char) :
    ∀ h : Int, -(2 ^ 31) ≤ h ∧ h < 2 ^ 31 →
      -(2 ^ 31) ≤ l.foldl hashStep h ∧ l.foldl hashStep h < 2 ^ 31 := by
  induction l with
  | nil => exact fun h hh => hh
  | cons c rest ih =>
      intro h _
      exact ih (hashStep h c) (toInt32_range _)

theorem hashText_take_eq (s t : String)
    (h : s.toList.take 100 = t.toList.take 100) : hashText s = hashText t := by
  unfold hashText
  rw [h]

/-! ## Claims C3, C4 and C5 -/

/-- Claim C3: `isDuplicate` computes a 32-bit-wraparound polynomial hash of
at most the first 100 characters of the text, answers `true` and leaves the
seen set unchanged when the hash is already present, and otherwise inserts
the hash and answers `false`; consequently two distinct texts agreeing on
their first 100 characters collide, so once the first is accepted the second
is reported as a duplicate. -/
theorem c3_isDuplicate_hash_spec :
    (∀ s t : String, s.toList.take 100 = t.toList.take 100 → hashText s = hashText t) ∧
    (∀ s : String, -(2 ^ 31) ≤ hashText s ∧ hashText s < 2 ^ 31) ∧
    (∀ (text : String) (st : EngState),
      (hashText text ∈ st.seen → isDuplicate text st = (true, st)) ∧
      (hashText text ∉ st.seen →
        isDuplicate text st = (false, { st with seen := hashText text :: st.seen }))) ∧
    (∀ (t1 t2 : String) (st st2 : EngState),
      t1.toList.take 100 = t2.toList.take 100 →
      isDuplicate t1 st = (false, st2) →
      (isDuplicate t2 st2).1 = true) := by
  refine ⟨hashText_take_eq, fun s => foldl_hashStep_range _ 0 (by norm_num), ?_, ?_⟩
  · intro text st
    constructor
    · intro hmem; simp [isDuplicate, hmem]
    · intro hmem; simp [isDuplicate, hmem]
  · intro t1 t2 st st2 h100 hfirst
    by_cases hmem : hashText t1 ∈ st.seen
    · simp [isDuplicate, hmem] at hfirst
    · simp only [isDuplicate, hmem, if_neg, if_false, Prod.mk.injEq] at hfirst
      have hseen : hashText t2 ∈ st2.seen := by
        rw [← hfirst.2, hashText_take_eq t2 t1 h100.symm]
        exact List.mem_cons_self _ _
      simp [isDuplicate, hseen]

/-- Claim C3 witness: the hash of 100 copies of the letter a followed by an
x is recorded by a first `isDuplicate` call, and the distinct text with a y
in place of the x is then reported as a duplicate. -/
theorem c3_witness :
    (isDuplicate hashTextB { initState with seen := [hashText hashTextA] }).1 = true :=
  c3_isDuplicate_hash_spec.2.2.2 hashTextA hashTextB initState
    { initState with seen := [hashText hashTextA] } (by decide) rfl

/-- Claim C4: the `extractContent` snapshot reply is the accumulated content
with `textContent` truncated to its first 50000 characters (the full string
when it is shorter), the `getFullContent` reply is the accumulated content
untruncated, and neither request mutates the internal state. -/
theorem c4_snapshot_spec (s : EngState) :
    handleMessage .extractContent s
        = ({ s.content with textContent := strTake s.content.textContent 50000 }, s) ∧
    handleMessage .getFullContent s = (s.content, s) ∧
    (s.content.textContent.length ≤ 50000 →
      (handleMessage .extractContent s).1.textContent = s.content.textContent) := by
  refine ⟨rfl, rfl, fun h => ?_⟩
  show strTake s.content.textContent 50000 = s.content.textContent
  unfold strTake
  have h2 : s.content.textContent.toList.length ≤ 50000 := h
  rw [List.take_of_length_le h2]
  rfl

/-- Claim C4 witness: at the initial state, the snapshot reply of
`extractContent` carries the whole (empty) text. -/
theorem c4_witness :
    (handleMessage .extractContent initState).1.textContent
      = initState.content.textContent :=
  (c4_snapshot_spec initState).2.2 (by decide)

/-- Claim C5: `isComplete` starts out false, is set to true by the scroll
handler when the viewport bottom comes within the 100-pixel threshold of the
document bottom and by the auto-scroll command on completion, and no event
of the engine ever resets it to false (so it transitions at most once). -/
theorem c5_isComplete_monotone :
    initState.content.isComplete = false ∧
    (∀ (e : Event) (s : EngState), s.content.isComplete = true →
      (step e s).content.isComplete = true) ∧
    (∀ (doc : Doc) (w : Window) (now : Nat) (s : EngState),
      w.innerHeight + w.scrollY ≥ w.bodyHeight - 100 →
      (step (.scrollTimer doc w now) s).content.isComplete = true) ∧
    (∀ (w : Window) (s : EngState),
      (step (.autoScrollCmd w) s).content.isComplete = true) := by
  refine ⟨rfl, ?_, ?_, fun w s => rfl⟩
  · intro e s h
    cases e with
    | initialPass doc now => rw [step, extractAllContent_isComplete]; exact h
    | loadPass doc now => rw [step, extractAllContent_isComplete]; exact h
    | mutationPass doc now => rw [step, extractAllContent_isComplete]; exact h
    | autoScrollCmd w => rfl
    | message r => cases r <;> exact h
    | scrollTimer doc w now =>
        by_cases hbot : w.innerHeight + w.scrollY ≥ w.bodyHeight - 100
        · by_cases hmove : |w.scrollY - s.lastScrollPosition| > 100 <;>
            simp [step, scrollHandler, hbot, hmove]
        · by_cases hmove : |w.scrollY - s.lastScrollPosition| > 100 <;>
            simp [step, scrollHandler, hbot, hmove, extractAllContent_isComplete, h]
  · intro doc w now s hbot
    by_cases hmove : |w.scrollY - s.lastScrollPosition| > 100 <;>
      simp [step, scrollHandler, hbot, hmove]

/-- Claim C5 witness: a state already marked complete stays complete across
a snapshot message. -/
theorem c5_witness :
    (step (.message .getFullContent) stateComplete).content.isComplete = true :=
  c5_isComplete_monotone.2.1 (.message .getFullContent) stateComplete rfl

/-! ## Helper lemmas about the heading rebuild -/

theorem dedupHeadings_congr (l : List (Nat × String)) :
    ∀ s1 s2 : List String, (∀ x, x ∈ s1 ↔ x ∈ s2) →
      dedupHeadings s1 l = dedupHeadings s2 l := by
  induction l with
  | nil => intro s1 s2 _; rfl
  | cons p rest ih =>
      intro s1 s2 h
      by_cases hm : p.2 ∈ s1
      · simp [dedupHeadings, hm, (h p.2).mp hm, ih s1 s2 h]
      · have hm2 : p.2 ∉ s2 := fun hx => hm ((h p.2).mpr hx)
        simp only [dedupHeadings, hm, hm2, if_neg, if_false]
        rw [ih (p.2 :: s1) (p.2 :: s2) fun x => by simp [List.mem_cons, h x]]

theorem foldl_pushHeading (l : List (Nat × String)) :
    ∀ acc : List Heading,
      l.foldl pushHeading acc
        = acc ++ dedupHeadings (acc.map Heading.text)
            (l.filter fun p => !(p.2 == "") && decide (p.2.length < 200)) := by
  induction l with
  | nil => intro acc; simp [dedupHeadings]
  | cons p rest ih =>
      intro acc
      by_cases hkeep : p.2 ≠ "" ∧ p.2.length < 200
      · have hfil : (!(p.2 == "") && decide (p.2.length < 200)) = true := by
          simp [hkeep.1, hkeep.2]
        by_cases hmem : p.2 ∈ acc.map Heading.text
        · have hany : (acc.any fun h => h.text == p.2) = true := by
            rw [List.any_eq_true]
            obtain ⟨a, ha, he⟩ := List.mem_map.mp hmem
            exact ⟨a, ha, by simp [he]⟩
          have hpush : pushHeading acc p = acc := by
            simp [pushHeading, hkeep, hany]
          rw [List.foldl_cons, hpush, ih acc, List.filter_cons, hfil]
          simp only [if_true, dedupHeadings, hmem, if_pos]
        · have hany : (acc.any fun h => h.text == p.2) = false := by
            rw [List.any_eq_false]
            intro a ha
            simp only [beq_iff_eq]
            intro he
            exact hmem (List.mem_map.mpr ⟨a, ha, he⟩)
          have hpush : pushHeading acc p = acc ++ [⟨p.1, p.2⟩] := by
            simp [pushHeading, hkeep, hany]
          rw [List.foldl_cons, hpush, ih, List.filter_cons, hfil]
          simp only [if_true, dedupHeadings, hmem, if_neg, if_false, List.map_append,
            List.map_cons, List.map_nil, List.append_assoc, List.singleton_append]
          rw [dedupHeadings_congr _ (acc.map Heading.text ++ [p.2]) (p.2 :: acc.map Heading.text)
            fun x => by simp [List.mem_cons, List.mem_append, or_comm]]
      · have hfil : (!(p.2 == "") && decide (p.2.length < 200)) = false := by
          rcases Classical.em (p.2 = "") with he | he
          · simp [he]
          · have hlen : ¬ p.2.length < 200 := fun hl => hkeep ⟨he, hl⟩
            simp [he, hlen]
        have hpush : pushHeading acc p = acc := by
          simp [pushHeading, hkeep]
        rw [List.foldl_cons, hpush, ih acc, List.filter_cons, hfil]
        simp

theorem buildHeadings_eq (doc : Doc) : buildHeadings doc = headingsAmended doc := by
  unfold buildHeadings headingsAmended
  rw [foldl_pushHeading]
  simp

/-! ## Claim C6 -/

set_option maxRecDepth 40000 in
/-- Claim C6 counterexample: on a document whose only heading has exactly
200 characters of (normalised) text, the engine's rebuilt heading list is
empty, while the in-order deduplicated heading list of the live document —
the list the claim says it equals — contains that heading.  The claim omits
the source's filter discarding headings with empty or 200-plus-character
text. -/
theorem c6_headings_counterexample :
    (extractAllContent docHeadCE 0 initState).content.structuredContent.headings = [] ∧
    headingsClaimed docHeadCE = [⟨1, aText200⟩] ∧
    (extractAllContent docHeadCE 0 initState).content.structuredContent.headings
      ≠ headingsClaimed docHeadCE :=
  ⟨by decide, by decide, by decide⟩

/-- Claim C6 amended: after any extraction pass, `structuredContent.headings`
equals exactly the in-order list of the live document's headings *whose
normalised text is nonempty and shorter than 200 characters*, deduplicated by
exact text with the first occurrence (and its numeric level) kept; the result
does not depend on the prior state, so previous structured contents are
discarded each pass rather than unioned. -/
theorem c6_headings_amended (doc : Doc) (now : Nat) (s : EngState) :
    (extractAllContent doc now s).content.structuredContent.headings
      = headingsAmended doc := by
  rw [extractAllContent_eq]
  show (refreshContent doc now (((candsOf doc).foldl processCand s)).content).structuredContent.headings
      = headingsAmended doc
  rw [refreshContent_headings, buildHeadings_eq]

/-! ## Helper lemmas about the auto-scroll loop -/

theorem rmin_eq (a b : Rat) : rmin a b = min a b := by
  unfold rmin
  split_ifs with h
  · rw [min_eq_left h]
  · rw [min_eq_right (le_of_not_le h)]

theorem rmax_eq (a b : Rat) : rmax a b = max a b := by
  unfold rmax
  split_ifs with h
  · rw [max_eq_right h]
  · rw [max_eq_left (le_of_not_le h)]

theorem scrollByClamped_innerHeight (w : Window) (dy : Rat) :
    (scrollByClamped w dy).innerHeight = w.innerHeight := rfl

theorem scrollByClamped_bodyHeight (w : Window) (dy : Rat) :
    (scrollByClamped w dy).bodyHeight = w.bodyHeight := rfl

theorem iter_innerHeight (st : Rat) (w : Window) :
    ∀ k : Nat, ((fun x => scrollByClamped x st)^[k] w).innerHeight = w.innerHeight := by
  intro k
  induction k with
  | zero => rfl
  | succ n ih =>
      rw [Function.iterate_succ_apply', scrollByClamped_innerHeight]
      exact ih

theorem iter_bodyHeight (st : Rat) (w : Window) :
    ∀ k : Nat, ((fun x => scrollByClamped x st)^[k] w).bodyHeight = w.bodyHeight := by
  intro k
  induction k with
  | zero => rfl
  | succ n ih =>
      rw [Function.iterate_succ_apply', scrollByClamped_bodyHeight]
      exact ih

theorem iter_scrollY (st : Rat) (hst : 0 ≤ st) (w : Window) (h0 : w.scrollY = 0)
    (hmax : 0 ≤ w.bodyHeight - w.innerHeight) :
    ∀ k : Nat, ((fun x => scrollByClamped x st)^[k] w).scrollY
      = min ((k : Rat) * st) (w.bodyHeight - w.innerHeight) := by
  intro k
  induction k with
  | zero =>
      simp only [Function.iterate_zero_apply, h0, Nat.cast_zero, zero_mul]
      exact (min_eq_left hmax).symm
  | succ n ih =>
      rw [Function.iterate_succ_apply']
      show rmin (rmax (((fun x => scrollByClamped x st)^[n] w).scrollY + st) 0)
          (rmax (((fun x => scrollByClamped x st)^[n] w).bodyHeight
            - ((fun x => scrollByClamped x st)^[n] w).innerHeight) 0)
        = min (((n + 1 : Nat) : Rat) * st) (w.bodyHeight - w.innerHeight)
      rw [iter_innerHeight, iter_bodyHeight, ih, rmin_eq, rmax_eq, rmax_eq,
        max_eq_left hmax]
      have hyn : (0 : Rat) ≤ min ((n : Rat) * st) (w.bodyHeight - w.innerHeight) :=
        le_min (mul_nonneg (Nat.cast_nonneg n) hst) hmax
      rw [max_eq_left (by linarith :
        (0 : Rat) ≤ min ((n : Rat) * st) (w.bodyHeight - w.innerHeight) + st)]
      push_cast
      rcases le_total ((n : Rat) * st) (w.bodyHeight - w.innerHeight) with hc | hc
      · rw [min_eq_left hc]
        congr 1
        ring
      · rw [min_eq_right hc,
          min_eq_right (by linarith :
            w.bodyHeight - w.innerHeight ≤ w.bodyHeight - w.innerHeight + st),
          min_eq_right (by nlinarith :
            w.bodyHeight - w.innerHeight ≤ ((n : Rat) + 1) * st)]

theorem autoScrollLoop_succ (st : Rat) (f : Nat) (w : Window) (c : Nat) :
    autoScrollLoop st (f + 1) w c =
      if (scrollByClamped w st).innerHeight + (scrollByClamped w st).scrollY
          ≥ (scrollByClamped w st).bodyHeight - 50 ∨ c + 1 ≥ 50
      then (scrollByClamped w st, c + 1)
      else autoScrollLoop st f (scrollByClamped w st) (c + 1) := rfl

theorem autoScrollLoop_le (st : Rat) :
    ∀ (n f : Nat) (w : Window) (c : Nat), n ≤ f →
      ((fun x => scrollByClamped x st)^[n + 1] w).innerHeight
          + ((fun x => scrollByClamped x st)^[n + 1] w).scrollY
        ≥ ((fun x => scrollByClamped x st)^[n + 1] w).bodyHeight - 50 →
      (autoScrollLoop st (f + 1) w c).2 ≤ c + n + 1 := by
  intro n
  induction n with
  | zero =>
      intro f w c _ hstop
      simp only [Function.iterate_succ_apply, Function.iterate_zero_apply] at hstop
      rw [autoScrollLoop_succ, if_pos (Or.inl hstop)]
  | succ m ih =>
      intro f w c hf hstop
      obtain ⟨f2, rfl⟩ : ∃ f2, f = f2 + 1 := ⟨f - 1, by omega⟩
      have hf2 : m ≤ f2 := by omega
      rw [autoScrollLoop_succ]
      by_cases hcond : (scrollByClamped w st).innerHeight + (scrollByClamped w st).scrollY
          ≥ (scrollByClamped w st).bodyHeight - 50 ∨ c + 1 ≥ 50
      · rw [if_pos hcond]
        omega
      · rw [if_neg hcond]
        have hstop2 := hstop
        rw [Function.iterate_succ_apply] at hstop2
        have hrec := ih f2 (scrollByClamped w st) (c + 1) hf2 hstop2
        omega

theorem autoScrollLoop_cap (st : Rat) :
    ∀ (f : Nat) (w : Window) (c : Nat), (autoScrollLoop st f w c).2 ≤ c + f := by
  intro f
  induction f with
  | zero => intro w c; exact Nat.le_refl c
  | succ n ih =>
      intro w c
      rw [autoScrollLoop_succ]
      by_cases hcond : (scrollByClamped w st).innerHeight + (scrollByClamped w st).scrollY
          ≥ (scrollByClamped w st).bodyHeight - 50 ∨ c + 1 ≥ 50
      · rw [if_pos hcond]
        omega
      · rw [if_neg hcond]
        have := ih (scrollByClamped w st) (c + 1)
        omega

theorem autoScrollPage_scrollY (w : Window) : (autoScrollPage w).1.scrollY = 0 := rfl

/-! ## Claim C7 -/

/-- Claim C7 counterexample: on a page exactly ten viewports tall with a
viewport height of 1000, the auto-scroll takes 12 steps, not the at most 10
the claim asserts: each step covers 80% of a viewport, so the 9 viewports of
scrollable height need ⌈9 / 0.8⌉ = 12 steps (the last one clamped at the
bottom). -/
theorem c7_autoscroll_counterexample :
    (autoScrollPage winCE).2 = 12 ∧ ¬ ((autoScrollPage winCE).2 ≤ 10) := by
  have h : (autoScrollPage winCE).2 = 12 := by
    norm_num [autoScrollPage, autoScrollLoop, scrollByClamped, rmin, rmax, winCE]
  exact ⟨h, by rw [h]; omega⟩

/-- Claim C7 amended: the auto-scroll scrolls downward in increments of 80%
of the viewport height every 300 ms, never takes more than the 50-step cap,
and on completion the viewport is scrolled back to the top; on a page exactly
10 viewport-heights tall it completes in at most *12* steps, and the
auto-scroll command leaves `isComplete` true. -/
theorem c7_autoscroll_amended :
    autoScrollIntervalMs = 300 ∧
    (∀ w : Window, (autoScrollPage w).2 ≤ 50 ∧ (autoScrollPage w).1.scrollY = 0) ∧
    (∀ (w : Window) (s : EngState), 0 < w.innerHeight → w.scrollY = 0 →
      w.bodyHeight = 10 * w.innerHeight →
      (autoScrollPage w).2 ≤ 12 ∧
      (step (.autoScrollCmd w) s).content.isComplete = true) := by
  refine ⟨rfl, fun w => ⟨?_, autoScrollPage_scrollY w⟩, ?_⟩
  · have h := autoScrollLoop_cap (w.innerHeight * (4 / 5)) 50 w 0
    exact h
  · intro w s hpos h0 hbody
    refine ⟨?_, rfl⟩
    have hst : (0 : Rat) ≤ w.innerHeight * (4 / 5) :=
      mul_nonneg (le_of_lt hpos) (by norm_num)
    have hmax : (0 : Rat) ≤ w.bodyHeight - w.innerHeight := by
      rw [hbody]; linarith
    have h1 := iter_innerHeight (w.innerHeight * (4 / 5)) w 12
    have h2 := iter_bodyHeight (w.innerHeight * (4 / 5)) w 12
    have h3 := iter_scrollY (w.innerHeight * (4 / 5)) hst w h0 hmax 12
    have hstop : ((fun x => scrollByClamped x (w.innerHeight * (4 / 5)))^[12] w).innerHeight
          + ((fun x => scrollByClamped x (w.innerHeight * (4 / 5)))^[12] w).scrollY
        ≥ ((fun x => scrollByClamped x (w.innerHeight * (4 / 5)))^[12] w).bodyHeight - 50 := by
      rw [h1, h2, h3, hbody]
      push_cast
      rw [min_eq_right (by linarith :
        10 * w.innerHeight - w.innerHeight ≤ (12 : Rat) * (w.innerHeight * (4 / 5)))]
      linarith
    have hle := autoScrollLoop_le (w.innerHeight * (4 / 5)) 11 49 w 0 (by omega) hstop
    exact hle

/-- Claim C7 witness: the amended bound instantiated on the concrete
ten-viewport page of height 10000. -/
theorem c7_witness :
    (autoScrollPage winCE).2 ≤ 12 ∧
    (step (.autoScrollCmd winCE) initState).content.isComplete = true :=
  c7_autoscroll_amended.2.2 winCE initState (by decide) rfl rfl

/-! ## Claim C8 -/

theorem tableRowsAux_take (l : List Node) :
    ∀ i : Nat, tableRowsAux i l = (l.take (21 - i)).filterMap rowOf := by
  induction l with
  | nil => intro i; simp [tableRowsAux]
  | cons tr rest ih =>
      intro i
      by_cases hi : i > 20
      · have h1 : 21 - i = 0 := by omega
        have h2 : 21 - (i + 1) = 0 := by omega
        simp only [tableRowsAux, hi, if_true, ih (i + 1), h1, h2, List.take_zero,
          List.filterMap_nil]
      · have h1 : 21 - i = (20 - i) + 1 := by omega
        have h2 : 21 - (i + 1) = 20 - i := by omega
        simp only [tableRowsAux, hi, if_false, h1, List.take_succ_cons,
          List.filterMap_cons]
        by_cases hcell : rowCellsOf tr = []
        · simp only [hcell, if_true, rowOf, ih (i + 1), h2]
        · simp only [hcell, if_false, rowOf, ih (i + 1), h2]

set_option maxRecDepth 40000 in
/-- Claim C8 counterexample: a table with 22 single-cell rows yields 21 rows
in the emitted block — the source skips only row indices strictly above 20,
so 21 rows (indices 0 through 20) are scanned, not the at most 20 the claim
asserts.  Moreover a cell of exactly 200 characters — which the claim (cells
*longer* than 200 skipped) says is kept — is skipped, leaving an empty
block. -/
theorem c8_table_counterexample :
    (extractTableRows tableCE).length = 21 ∧
    ¬ ((extractTableRows tableCE).length ≤ 20) ∧
    extractTableText tableCE2 = "" :=
  ⟨by decide, by decide, by decide⟩

/-- Claim C8 amended: per table at most *21* rows (indices 0 through 20) are
scanned; the emitted block is the row-major cell text of those rows with
cells joined by the column delimiter, and cells of *200 or more* characters
are skipped. -/
theorem c8_table_amended (tb : Node) :
    extractTableRows tb = tableRowsAmended tb ∧
    extractTableText tb = joinSep "\n" (tableRowsAmended tb) := by
  have h : extractTableRows tb = tableRowsAmended tb := by
    unfold extractTableRows tableRowsAmended
    rw [tableRowsAux_take]
  exact ⟨h, by rw [extractTableText, h]⟩

/-! ## Claim C9 -/

/-- Claim C9: an image that passes the dimension, novelty and tracking-pixel
filters but whose base64 encode fails is still appended to `images` with its
src, alt, title and dimension metadata and with no `base64` value, rather
than being dropped; `updateImages` is total, so no error reaches the
caller. -/
theorem c9_failed_encode_kept (doc : Doc) (c : Content) (d : ElemData)
    (hmem : d ∈ imgElems doc)
    (helig : imageEligible (c.images.map Image.src) d = true)
    (henc : d.encodeOk = false) :
    (∃ l, (updateImages doc c).images = c.images ++ l) ∧
    ({ src := d.src, alt := d.alt, title := d.title, width := d.naturalWidth,
       height := d.naturalHeight, base64 := none } : Image)
      ∈ (updateImages doc c).images := by
  constructor
  · exact ⟨_, rfl⟩
  · show _ ∈ c.images ++
      ((imgElems doc).filterMap fun d2 =>
        if imageEligible (c.images.map Image.src) d2 then some (mkImage d2) else none)
    apply List.mem_append_right
    apply List.mem_filterMap.mpr
    refine ⟨d, hmem, ?_⟩
    rw [if_pos helig]
    simp [mkImage, getImageBase64, henc]

/-- Claim C9 witness: the cross-origin image of the concrete document is
recorded with its metadata and without a base64 payload. -/
theorem c9_witness :
    ({ src := "https://example.com/fig.png", alt := "figure", title := "fig",
       width := 200, height := 300, base64 := none } : Image)
      ∈ (updateImages docImgCE {}).images :=
  (c9_failed_encode_kept docImgCE {} imgFailData (by decide) (by decide) rfl).2

/-! ## Claim C10 -/

theorem walkerAccept_eq (p : ElemData) (s : String) :
    walkerAccept p s
      = (!(blockedTags.contains p.tag) && !(p.displayNone || p.visibilityHidden)
          && !(decide ((jsTrim s).length < 10))) := by
  unfold walkerAccept
  cases hc : blockedTags.contains p.tag
  · cases hh : (p.displayNone || p.visibilityHidden)
    · by_cases h3 : (jsTrim s).length < 10
      · simp only [if_pos h3, decide_eq_true h3]
        rfl
      · simp only [if_neg h3, decide_eq_false h3]
        rfl
    · rfl
  · rfl

theorem amended_cond_eq (p : ElemData) (s : String) :
    (!(blockedTags.contains p.tag) && !(p.displayNone || p.visibilityHidden)
      && decide ((jsTrim s).length ≥ 10) && decide ((cleanText s).length > 10))
    = (walkerAccept p s && decide ((cleanText s).length > 10)) := by
  rw [walkerAccept_eq]
  have hd : decide ((jsTrim s).length ≥ 10) = !(decide ((jsTrim s).length < 10)) := by
    by_cases h : (jsTrim s).length < 10
    · rw [decide_eq_false (by omega : ¬ ((jsTrim s).length ≥ 10)), decide_eq_true h]
      rfl
    · rw [decide_eq_true (by omega : (jsTrim s).length ≥ 10), decide_eq_false h]
      rfl
  rw [hd]

theorem walkerCode_eq_amended (doc : Doc) :
    walkerCodeAccepted doc = walkerAmendedAccepted doc := by
  unfold walkerCodeAccepted walkerAmendedAccepted bodyCands
  induction textNodesUnder doc.body with
  | nil => rfl
  | cons pd rest ih =>
      by_cases hw : walkerAccept pd.1 pd.2 = true
      · rw [List.filter_cons_of_pos (by exact hw), List.map_cons]
        by_cases hlen : (cleanText pd.2).length > 10
        · have hk : decide ((cleanText pd.2).length > 10) = true := decide_eq_true hlen
          have hsome : (if (!(blockedTags.contains pd.1.tag)
                && !(pd.1.displayNone || pd.1.visibilityHidden)
                && decide ((jsTrim pd.2).length ≥ 10)
                && decide ((cleanText pd.2).length > 10))
              then some (cleanText pd.2) else none) = some (cleanText pd.2) := by
            have hcond : (!(blockedTags.contains pd.1.tag)
                && !(pd.1.displayNone || pd.1.visibilityHidden)
                && decide ((jsTrim pd.2).length ≥ 10)
                && decide ((cleanText pd.2).length > 10)) = true := by
              rw [amended_cond_eq, hw, hk]
              rfl
            rw [if_pos hcond]
          rw [List.filter_cons_of_pos (by exact hk), List.map_cons,
            List.filterMap_cons_some (by exact hsome), ih]
        · have hkf : decide ((cleanText pd.2).length > 10) = false := decide_eq_false hlen
          have hnone : (if (!(blockedTags.contains pd.1.tag)
                && !(pd.1.displayNone || pd.1.visibilityHidden)
                && decide ((jsTrim pd.2).length ≥ 10)
                && decide ((cleanText pd.2).length > 10))
              then some (cleanText pd.2) else none) = none := by
            have hcond : (!(blockedTags.contains pd.1.tag)
                && !(pd.1.displayNone || pd.1.visibilityHidden)
                && decide ((jsTrim pd.2).length ≥ 10)
                && decide ((cleanText pd.2).length > 10)) = false := by
              rw [amended_cond_eq, hkf, Bool.and_false]
            rw [if_neg (by rw [hcond]; exact Bool.false_ne_true)]
          rw [List.filter_cons_of_neg (by exact ne_true_of_eq_false hkf),
            List.filterMap_cons_none (by exact hnone), ih]
      · have hwf : walkerAccept pd.1 pd.2 = false := by
          simpa using hw
        have hnone : (if (!(blockedTags.contains pd.1.tag)
              && !(pd.1.displayNone || pd.1.visibilityHidden)
              && decide ((jsTrim pd.2).length ≥ 10)
              && decide ((cleanText pd.2).length > 10))
            then some (cleanText pd.2) else none) = none := by
          have hcond : (!(blockedTags.contains pd.1.tag)
              && !(pd.1.displayNone || pd.1.visibilityHidden)
              && decide ((jsTrim pd.2).length ≥ 10)
              && decide ((cleanText pd.2).length > 10)) = false := by
            rw [amended_cond_eq, hwf, Bool.false_and]
          rw [if_neg (by rw [hcond]; exact Bool.false_ne_true)]
        rw [List.filter_cons_of_neg (by exact hw),
          List.filterMap_cons_none (by exact hnone), ih]

theorem fold_simple_cands (l : List Cand) :
    ∀ s : EngState, (∀ c ∈ l, c.isPara = false ∧ c.render = c.raw) →
      l.foldl processCand s
        = ((l.filter fun c => c.keep).map fun c => c.raw).foldl processBlock s := by
  induction l with
  | nil => intro s _; rfl
  | cons c rest ih =>
      intro s h
      obtain ⟨hp, hr⟩ := h c (List.mem_cons_self c rest)
      have htail : ∀ d ∈ rest, d.isPara = false ∧ d.render = d.raw :=
        fun d hd => h d (List.mem_cons_of_mem c hd)
      by_cases hk : c.keep = true
      · have hpc : processCand s c = processBlock s c.raw := by
          by_cases hm : hashText c.raw ∈ s.seen <;>
            simp [processCand, processBlock, isDuplicate, hk, hp, hr, hm]
        rw [List.foldl_cons, hpc, List.filter_cons_of_pos (by exact hk), List.map_cons,
          List.foldl_cons, ih (processBlock s c.raw) htail]
      · have hpc : processCand s c = s :=
          processCand_stable s c fun hkk => absurd hkk hk
        rw [List.foldl_cons, hpc, List.filter_cons_of_neg (by exact hk), ih s htail]

/-- Claim C10 counterexample: the walker's filter inspects only the *parent*
element of a text node, so the text nested two levels inside a `nav` (which
the claim says is rejected) is accepted, while a visible 10-character
paragraph (which the claim, requiring at least 10 characters after
normalisation, says is accepted) is rejected by the loop's strict
`length > 10` guard. -/
theorem c10_walker_counterexample :
    walkerCodeAccepted docWalkCE = ["inside navigation menu"] ∧
    walkerClaimAccepted docWalkCE = ["0123456789"] ∧
    walkerCodeAccepted docWalkCE ≠ walkerClaimAccepted docWalkCE :=
  ⟨by decide, by decide, by decide⟩

/-- Claim C10 amended: the fallback walker rejects text nodes whose *parent*
element is a script/style/noscript/iframe/svg/nav/footer/header element or
has hidden computed style, and accepts exactly the remaining text nodes with
trimmed text of at least 10 characters and *more than* 10 characters after
normalisation; every accepted node's text is deduplicated and appended to
`textContent`. -/
theorem c10_walker_amended (doc : Doc) :
    walkerCodeAccepted doc = walkerAmendedAccepted doc ∧
    ∀ s : EngState, extractFromBody doc s = (walkerAmendedAccepted doc).foldl processBlock s := by
  refine ⟨walkerCode_eq_amended doc, fun s => ?_⟩
  have hpre : ∀ c ∈ bodyCands doc, c.isPara = false ∧ c.render = c.raw := by
    intro c hc
    obtain ⟨pd, _, rfl⟩ := List.mem_map.mp hc
    exact ⟨rfl, rfl⟩
  rw [extractFromBody, fold_simple_cands (bodyCands doc) s hpre, ← walkerCode_eq_amended doc]
  rfl

end PageSage
